import Mathlib

/-!
Verification development for the TechMart inventory ledger engine
(`techmart.py` / `techmart_simplified.py`).

The engine is modelled shallowly:

* Monetary values are exact decimals.  A decimal is a pair `(m, e) : ℤ × ℕ`
  denoting `m / 10 ^ e`, mirroring Python's `Decimal(str(x))` which parses
  the shortest decimal representation of `x`.  Round-trips through binary
  floats that preserve the shortest decimal representation are treated as
  exact, so all arithmetic is carried out on rationals.
* CSV files are lists of rows, each row a list of strings; reading,
  overwriting and appending are the identity operations on those lists.
* Interactive prompting, screen clearing and uuid generation are stripped;
  the generated identifiers and timestamps become explicit arguments.
* A Python `assert` failure or uncaught `IndexError` aborts the operation
  before any subsequent file write; such an aborted call is modelled as
  `none`, and the observed state after a caught exception is the state
  before the call.
-/

/-- An exact decimal `(m, e)` denoting `m / 10 ^ e`, as produced by
`Decimal(str(x))` in `HelperFunctions`. -/
abbrev Dec := ℤ × ℕ

/-- Rational value of a decimal. -/
def decVal (d : Dec) : ℚ := (d.1 : ℚ) / (10 : ℚ) ^ d.2

/-- Shortest form of a decimal with mantissa `m` and `e` fractional digits:
drop trailing zeros of the mantissa, as the `str`/`Decimal` round-trip
does. -/
def normDecAux : ℤ → ℕ → ℤ × ℕ
  | m, 0 => (m, 0)
  | m, e + 1 => if (10 : ℤ) ∣ m then normDecAux (m / 10) e else (m, e + 1)

/-- Shortest form of a decimal. -/
def normDec (d : Dec) : Dec := normDecAux d.1 d.2

/-- Number of fractional digits of a decimal's shortest representation,
modelling `Decimal(str(num)).as_tuple().exponent * -1`. -/
def numDp (d : Dec) : ℕ := (normDec d).2

/-- Exact product of two decimals, modelling
`Decimal(str(multiplicand)) * Decimal(str(multiplier))`. -/
def mulDec (a b : Dec) : Dec := (a.1 * b.1, a.2 + b.2)

/-- `TechMartConstants.DEFAULT_STEP_VALUE = 0.00000001`. -/
def DEFAULT_STEP_VALUE : Dec := (1, 8)

/-- `TechMartConstants.PRECISION = 8`. -/
def PRECISION : ℕ := 8

/-- `HelperFunctions.func_floor_to_precision`: floor `num` down to
`precision` decimal places, but only when `num` carries more than
`precision` fractional digits; otherwise return it unchanged. -/
def func_floor_to_precision (num : Dec) (precision : ℕ) : ℚ :=
  if precision < numDp num then
    ((⌊decVal num * (10 : ℚ) ^ precision⌋ : ℤ) : ℚ) / (10 : ℚ) ^ precision
  else decVal num

/-- `HelperFunctions.func_get_step_precision`: fractional digits implied by
the step value (an integral step is first collapsed to an integer). -/
def func_get_step_precision (step : Dec) : ℕ := numDp step

/-- `HelperFunctions.func_adjust_value_to_step`. -/
def func_adjust_value_to_step (input_val : Dec) (step : Dec) : ℚ :=
  func_floor_to_precision input_val (func_get_step_precision step)

/-- `HelperFunctions.func_float_multiply`: exact decimal product adjusted
to the step's precision (the Python default argument `step=None` selects
`DEFAULT_STEP_VALUE`; the step is passed explicitly here). -/
def func_float_multiply (multiplicand multiplier : Dec) (step : Dec) : ℚ :=
  func_adjust_value_to_step (mulDec multiplicand multiplier) step

/-- Truncation toward zero to `d` fractional digits.  Modelled from the
spec's words "floored (truncated toward zero, never rounded) to d
fractional digits", for comparison with `func_float_multiply`. -/
def truncTowardZeroSpec (x : ℚ) (d : ℕ) : ℚ :=
  ((if 0 ≤ x then ⌊x * (10 : ℚ) ^ d⌋ else ⌈x * (10 : ℚ) ^ d⌉ : ℤ) : ℚ) / (10 : ℚ) ^ d

lemma decVal_normDecAux (m : ℤ) (e : ℕ) :
    decVal (normDecAux m e) = decVal (m, e) := by
  induction e generalizing m with
  | zero => rfl
  | succ e ih =>
      rw [normDecAux]
      split
      · rename_i hdvd
        rw [ih]
        obtain ⟨k, hk⟩ := hdvd
        subst hk
        rw [Int.mul_ediv_cancel_left _ (by norm_num)]
        simp only [decVal, pow_succ]
        push_cast
        field_simp
        ring
      · rfl

lemma decVal_normDec (d : Dec) : decVal (normDec d) = decVal d := by
  rcases d with ⟨m, e⟩
  exact decVal_normDecAux m e

lemma decVal_mulDec (a b : Dec) : decVal (mulDec a b) = decVal a * decVal b := by
  rcases a with ⟨m1, e1⟩
  rcases b with ⟨m2, e2⟩
  simp only [decVal, mulDec, pow_add]
  push_cast
  field_simp

lemma pow_dvd_mantissa_of_int (m : ℤ) (e : ℕ)
    (h : ∃ k : ℤ, decVal (m, e) = k) : (10 : ℤ) ^ e ∣ m := by
  obtain ⟨k, hk⟩ := h
  have h10 : ((10 : ℚ) ^ e) ≠ 0 := by positivity
  have hq : (m : ℚ) = (k : ℚ) * (10 : ℚ) ^ e := by
    field_simp [decVal] at hk
    exact_mod_cast hk
  have hmk : m = k * 10 ^ e := by exact_mod_cast hq
  exact ⟨k, by rw [hmk, mul_comm]⟩

lemma numDp_eq_zero_of_int (s : Dec) (h : ∃ k : ℤ, decVal s = k) :
    func_get_step_precision s = 0 := by
  rcases s with ⟨m, e⟩
  show (normDecAux m e).2 = 0
  induction e generalizing m with
  | zero => rfl
  | succ e ih =>
      have hdvd : (10 : ℤ) ∣ m := by
        have := pow_dvd_mantissa_of_int m (e + 1) h
        exact dvd_trans (dvd_pow_self 10 (Nat.succ_ne_zero e)) this
      rw [normDecAux, if_pos hdvd]
      obtain ⟨k, hk⟩ := h
      refine ih (m / 10) ⟨k, ?_⟩
      obtain ⟨j, hj⟩ := hdvd
      subst hj
      rw [Int.mul_ediv_cancel_left _ (by norm_num)]
      have h10 : ((10 : ℚ) ^ (e + 1)) ≠ 0 := by positivity
      simp only [decVal, pow_succ] at hk ⊢
      push_cast at hk ⊢
      field_simp at hk ⊢
      linarith [hk]

lemma floor_of_few_digits (d : Dec) (p : ℕ) (h : numDp d ≤ p) :
    ((⌊decVal d * (10 : ℚ) ^ p⌋ : ℤ) : ℚ) / (10 : ℚ) ^ p = decVal d := by
  rcases hnd : normDec d with ⟨m, e⟩
  have he : e ≤ p := by
    have h2 := h
    unfold numDp at h2
    rw [hnd] at h2
    exact h2
  have hval : decVal d = (m : ℚ) / (10 : ℚ) ^ e := by
    rw [← decVal_normDec d, hnd]; rfl
  have hint : decVal d * (10 : ℚ) ^ p = ((m * 10 ^ (p - e) : ℤ) : ℚ) := by
    rw [hval]
    have hsplit : (10 : ℚ) ^ p = (10 : ℚ) ^ e * (10 : ℚ) ^ (p - e) := by
      rw [← pow_add, Nat.add_sub_cancel' he]
    rw [hsplit]
    push_cast
    field_simp
    ring
  rw [hint, Int.floor_intCast, ← hint]
  have h10p : ((10 : ℚ) ^ p) ≠ 0 := by positivity
  field_simp

lemma func_float_multiply_eq_floor (a b s : Dec) :
    func_float_multiply a b s =
      ((⌊decVal a * decVal b * (10 : ℚ) ^ func_get_step_precision s⌋ : ℤ) : ℚ) /
        (10 : ℚ) ^ func_get_step_precision s := by
  unfold func_float_multiply func_adjust_value_to_step func_floor_to_precision
  rw [decVal_mulDec]
  split
  · rfl
  · rename_i hle
    push_neg at hle
    rw [← decVal_mulDec a b]
    exact (floor_of_few_digits (mulDec a b) _ hle).symm

/-- C7 (amended): `func_float_multiply` equals the exact decimal product
floored toward negative infinity to `d` fractional digits, where `d` is
derived from the step: the default step `1e-8` gives `d = 8`, a
whole-number step gives `d = 0`, and `0.1 * 3` under the default step is
exactly `0.3`. -/
theorem func_float_multiply_floors_to_step_precision (a b s : Dec) :
    func_float_multiply a b s =
      ((⌊decVal a * decVal b * (10 : ℚ) ^ func_get_step_precision s⌋ : ℤ) : ℚ) /
        (10 : ℚ) ^ func_get_step_precision s
    ∧ func_get_step_precision DEFAULT_STEP_VALUE = 8
    ∧ ((∃ k : ℤ, decVal s = k) → func_get_step_precision s = 0)
    ∧ func_float_multiply (1, 1) (3, 0) DEFAULT_STEP_VALUE = 3 / 10 := by
  refine ⟨func_float_multiply_eq_floor a b s, by decide, numDp_eq_zero_of_int s, ?_⟩
  rw [func_float_multiply_eq_floor]
  have hp : func_get_step_precision DEFAULT_STEP_VALUE = 8 := by decide
  rw [hp]
  have hval : decVal (1, 1) * decVal (3, 0) * (10 : ℚ) ^ 8 = ((30000000 : ℤ) : ℚ) := by
    norm_num [decVal]
  rw [hval, Int.floor_intCast]
  norm_num

/-- Witness for C7 (amended): instantiation at the default step and at the
whole-number step `2.0`, whose implied precision is `0`. -/
theorem func_float_multiply_floors_witness :
    func_float_multiply (1, 1) (3, 0) DEFAULT_STEP_VALUE = 3 / 10 ∧
      func_get_step_precision (20, 1) = 0 :=
  ⟨(func_float_multiply_floors_to_step_precision (1, 1) (3, 0) DEFAULT_STEP_VALUE).2.2.2,
    (func_float_multiply_floors_to_step_precision (1, 1) (3, 0) (20, 1)).2.2.1
      ⟨2, by norm_num [decVal]⟩⟩

/-- C7 counterexample: on the (exactly binary-representable) operands
`-0.001953125` and `1` with the default step, the code floors toward
negative infinity and returns `-0.00195313`, not the truncation toward
zero `-0.00195312` that the claim asserts. -/
theorem func_float_multiply_not_trunc_toward_zero :
    func_float_multiply (-1953125, 9) (1, 0) DEFAULT_STEP_VALUE = -195313 / 10 ^ 8
    ∧ truncTowardZeroSpec (decVal (mulDec (-1953125, 9) (1, 0))) 8 = -195312 / 10 ^ 8
    ∧ func_float_multiply (-1953125, 9) (1, 0) DEFAULT_STEP_VALUE ≠
        truncTowardZeroSpec (decVal (mulDec (-1953125, 9) (1, 0))) 8 := by
  have h1 : func_float_multiply (-1953125, 9) (1, 0) DEFAULT_STEP_VALUE =
      -195313 / 10 ^ 8 := by
    rw [func_float_multiply_eq_floor]
    have hp : func_get_step_precision DEFAULT_STEP_VALUE = 8 := by decide
    rw [hp]
    have hfl : ⌊decVal (-1953125, 9) * decVal (1, 0) * (10 : ℚ) ^ 8⌋ = -195313 := by
      rw [Int.floor_eq_iff]
      constructor
      · norm_num [decVal]
      · norm_num [decVal]
    rw [hfl]
    norm_num
  have h2 : truncTowardZeroSpec (decVal (mulDec (-1953125, 9) (1, 0))) 8 =
      -195312 / 10 ^ 8 := by
    unfold truncTowardZeroSpec
    rw [if_neg (by norm_num [decVal, mulDec])]
    have hcl : ⌈decVal (mulDec (-1953125, 9) (1, 0)) * (10 : ℚ) ^ 8⌉ = -195312 := by
      rw [Int.ceil_eq_iff]
      constructor
      · norm_num [decVal, mulDec]
      · norm_num [decVal, mulDec]
    rw [hcl]
    norm_num
  refine ⟨h1, h2, ?_⟩
  rw [h1, h2]
  norm_num

/-! ## Record store: rows, purge-and-transfer, soft delete -/

/-- A CSV row: a list of string fields. -/
abbrev Row := List String

/-- Overwrite the last field of a row (`row[-1] = str(datetime.now())`).
On an empty row the Python code would raise; every row reaching this
operation is nonempty, and the empty case is mapped to the empty row. -/
def setLast {α : Type} : List α → α → List α
  | [], _ => []
  | [_], v => [v]
  | x :: y :: t, v => x :: setLast (y :: t) v

/-- `HelperFunctions.purge_line_of_file_and_add_to_another`: split the
source rows into those containing `id_to_purge` as a field and the rest,
overwrite the source with the non-matching rows, and append the first
matching row — its last field overwritten with the current timestamp — to
the destination.  When no row matches, Python raises `IndexError` on
`rows_to_delete[0]`; that aborted call is `none`. -/
def purge_line_of_file_and_add_to_another (id_to_purge ts : String)
    (orig del : List Row) : Option (List Row × List Row × Row) :=
  let parts := orig.partition (fun r => decide (id_to_purge ∈ r))
  match parts.1 with
  | [] => none
  | r0 :: _ =>
      some (parts.2, del ++ [setLast r0 ts], setLast r0 ts)

/-- The two inventory record sets (`tech_mart_inventory.csv` and
`inactive_tech_mart_inventory.csv`). -/
structure StoreState where
  active : List Row
  inactive : List Row
deriving DecidableEq

/-- The product-id column of a record set (`[item[0] for item in ...]`). -/
def storeIds (s : List Row) : List String := s.map (fun r => r.headD "")

/-- `TechMart.remove_product_menu` minus the I/O: if the entered id is one
of the active ids, move the matching line from the active to the inactive
store. -/
def remove_product_menu (st : StoreState) (id ts : String) : StoreState :=
  if id ∈ storeIds st.active then
    match purge_line_of_file_and_add_to_another id ts st.active st.inactive with
    | some (a2, i2, _) => ⟨a2, i2⟩
    | none => st
  else st

/-- `TechMart.recover_deleted_product` minus the I/O: if the entered id is
one of the inactive ids, move the matching line from the inactive to the
active store. -/
def recover_deleted_product (st : StoreState) (id ts : String) : StoreState :=
  if id ∈ storeIds st.inactive then
    match purge_line_of_file_and_add_to_another id ts st.inactive st.active with
    | some (i2, a2, _) => ⟨a2, i2⟩
    | none => st
  else st

/-- `TechMart.add_product_menu` minus the I/O: append the freshly created
product row to the active store (the row is `[id, name, 0, t1, t2, now]`,
assembled by `prompt_add_product_input`). -/
def add_product_menu (st : StoreState) (id : String) (rest : List String) :
    StoreState :=
  ⟨st.active ++ [id :: rest], st.inactive⟩

lemma purge_eq_of_filter (id ts : String) (orig del : List Row) (r0 : Row)
    (rest : List Row)
    (hf : orig.filter (fun r => decide (id ∈ r)) = r0 :: rest) :
    purge_line_of_file_and_add_to_another id ts orig del =
      some (orig.filter (fun r => decide (id ∉ r)), del ++ [setLast r0 ts],
        setLast r0 ts) := by
  unfold purge_line_of_file_and_add_to_another
  rw [List.partition_eq_filter_filter]
  simp only [hf]
  have hneg : orig.filter (not ∘ fun r => decide (id ∈ r)) =
      orig.filter (fun r => decide (id ∉ r)) := by
    apply List.filter_congr
    intro r _
    by_cases h : id ∈ r <;> simp [h]
  rw [hneg]

/-- C5: when at least one source row matches, `purgeAndTransfer` removes
every matching row from the source, appends exactly the first matching
row (last field overwritten with the timestamp) to the destination and
returns it; later matches are dropped from the source without being
written anywhere. -/
theorem purgeAndTransfer_first_match (id ts : String) (orig del : List Row)
    (r0 : Row) (rest : List Row)
    (hf : orig.filter (fun r => decide (id ∈ r)) = r0 :: rest) :
    purge_line_of_file_and_add_to_another id ts orig del =
      some (orig.filter (fun r => decide (id ∉ r)), del ++ [setLast r0 ts],
        setLast r0 ts)
    ∧ (∀ r ∈ orig.filter (fun r => decide (id ∉ r)), id ∉ r)
    ∧ (∀ r ∈ orig, id ∉ r → r ∈ orig.filter (fun r => decide (id ∉ r)))
    ∧ (∀ r ∈ rest, r ∉ orig.filter (fun r => decide (id ∉ r)))
    ∧ (del ++ [setLast r0 ts]).length = del.length + 1 := by
  refine ⟨purge_eq_of_filter id ts orig del r0 rest hf, ?_, ?_, ?_, by simp⟩
  · intro r hr
    have := List.of_mem_filter hr
    simpa using this
  · intro r hr hno
    exact List.mem_filter.mpr ⟨hr, by simpa using hno⟩
  · intro r hr hkept
    have hmatch : r ∈ orig.filter (fun r => decide (id ∈ r)) := by
      rw [hf]; exact List.mem_cons_of_mem r0 hr
    have h1 : id ∈ r := by simpa using List.of_mem_filter hmatch
    have h2 : id ∉ r := by simpa using List.of_mem_filter hkept
    exact h2 h1

/-- Witness for C5: a source with three rows, two of which match
(the second via its name field); the first match is transferred with its
timestamp refreshed, the second is dropped. -/
theorem purgeAndTransfer_first_match_witness :
    purge_line_of_file_and_add_to_another "a" "z"
        [["a", "x", "t0"], ["c", "a", "t0"], ["b", "y", "t0"]] [] =
      some ([["b", "y", "t0"]], [["a", "x", "z"]], ["a", "x", "z"]) := by
  have h := purgeAndTransfer_first_match "a" "z"
    [["a", "x", "t0"], ["c", "a", "t0"], ["b", "y", "t0"]] []
    ["a", "x", "t0"] [["c", "a", "t0"]] (by decide)
  exact h.1

/-- C10: `purgeAndTransfer` treats a row as matching exactly when some
field of the row equals the identifier (list membership), so a row whose
name field equals another product's id is purged with it, while a field
that merely contains the id as a substring does not match. -/
theorem purge_matches_exact_field_membership :
    (∀ (id ts : String) (orig del s2 d2 : List Row) (rr : Row),
        purge_line_of_file_and_add_to_another id ts orig del = some (s2, d2, rr) →
        ∀ r ∈ orig, (r ∈ s2 ↔ ¬ ∃ f ∈ r, f = id))
    ∧ purge_line_of_file_and_add_to_another "a" "z" [["b", "a"]] [] =
        some ([], [["b", "z"]], ["b", "z"])
    ∧ purge_line_of_file_and_add_to_another "ab" "z" [["abc", "n"]] [] = none := by
  refine ⟨?_, by decide, by decide⟩
  intro id ts orig del s2 d2 rr hp r hr
  rcases hfm : orig.filter (fun r => decide (id ∈ r)) with _ | ⟨r0, rest⟩
  · unfold purge_line_of_file_and_add_to_another at hp
    rw [List.partition_eq_filter_filter] at hp
    simp only [hfm] at hp
    exact absurd hp (by simp)
  · have heq := purge_eq_of_filter id ts orig del r0 rest hfm
    rw [heq] at hp
    have hs2 : s2 = orig.filter (fun r => decide (id ∉ r)) := by
      injection hp with hp1
      exact (congrArg Prod.fst hp1).symm
    subst hs2
    constructor
    · intro hin hex
      have : id ∉ r := by simpa using List.of_mem_filter hin
      obtain ⟨f, hf1, hf2⟩ := hex
      exact this (hf2 ▸ hf1)
    · intro hnot
      refine List.mem_filter.mpr ⟨hr, ?_⟩
      simp only [decide_eq_true_eq]
      intro hin
      exact hnot ⟨id, hin, rfl⟩

/-- Witness for C10: in the purged store of the concrete run, the row
whose name field equals the purged id is gone, which together with the
membership characterisation instantiates the theorem. -/
theorem purge_matches_exact_field_membership_witness :
    (["b", "a"] ∈ ([] : List Row)) ↔ ¬ ∃ f ∈ ["b", "a"], f = "a" := by
  have h := purge_matches_exact_field_membership
  exact h.1 "a" "z" [["b", "a"]] [] [] [["b", "z"]] ["b", "z"] (by decide)
    ["b", "a"] (by decide)

lemma filter_eq_self_of_no_match (id : String) (l : List Row)
    (h : l.filter (fun r => decide (id ∈ r)) = []) :
    l.filter (fun r => decide (id ∉ r)) = l := by
  apply List.filter_eq_self.mpr
  intro r hr
  have hnot := List.filter_eq_nil_iff.mp h r hr
  simpa using hnot

/-- C6: for a product id matching exactly one active row and no inactive
row, `removeProduct` followed by `recoverProduct` leaves the inactive
store as it was and returns the product to the active store with id,
name, quantity and both thresholds unchanged; only the last-updated field
carries the new timestamp. -/
theorem remove_then_recover_roundtrip (id n q th tl lu ts1 ts2 : String)
    (active inactive : List Row)
    (ha : active.filter (fun r => decide (id ∈ r)) = [[id, n, q, th, tl, lu]])
    (hi : inactive.filter (fun r => decide (id ∈ r)) = []) :
    (recover_deleted_product (remove_product_menu ⟨active, inactive⟩ id ts1)
        id ts2).inactive = inactive
    ∧ (recover_deleted_product (remove_product_menu ⟨active, inactive⟩ id ts1)
        id ts2).active =
          active.filter (fun r => decide (id ∉ r)) ++ [[id, n, q, th, tl, ts2]]
    ∧ [id, n, q, th, tl, ts2] ∈
        (recover_deleted_product (remove_product_menu ⟨active, inactive⟩ id ts1)
          id ts2).active := by
  have hrow_f : [id, n, q, th, tl, lu] ∈ active.filter (fun r => decide (id ∈ r)) := by
    rw [ha]; exact List.mem_singleton_self _
  have hrow_mem : [id, n, q, th, tl, lu] ∈ active := List.mem_of_mem_filter hrow_f
  have hguard1 : id ∈ storeIds active := by
    unfold storeIds
    exact List.mem_map.mpr ⟨[id, n, q, th, tl, lu], hrow_mem, rfl⟩
  have hst1 : remove_product_menu ⟨active, inactive⟩ id ts1 =
      ⟨active.filter (fun r => decide (id ∉ r)),
        inactive ++ [[id, n, q, th, tl, ts1]]⟩ := by
    unfold remove_product_menu
    rw [if_pos hguard1, purge_eq_of_filter id ts1 active inactive _ [] ha]
    simp [setLast]
  rw [hst1]
  have hf2 : (inactive ++ [[id, n, q, th, tl, ts1]]).filter
      (fun r => decide (id ∈ r)) = [[id, n, q, th, tl, ts1]] := by
    rw [List.filter_append, hi]
    simp
  have hguard2 : id ∈ storeIds (inactive ++ [[id, n, q, th, tl, ts1]]) := by
    unfold storeIds
    exact List.mem_map.mpr ⟨[id, n, q, th, tl, ts1], by simp, rfl⟩
  have hst2 : recover_deleted_product
      ⟨active.filter (fun r => decide (id ∉ r)),
        inactive ++ [[id, n, q, th, tl, ts1]]⟩ id ts2 =
      ⟨active.filter (fun r => decide (id ∉ r)) ++ [[id, n, q, th, tl, ts2]],
        inactive⟩ := by
    unfold recover_deleted_product
    rw [if_pos hguard2,
      purge_eq_of_filter id ts2 (inactive ++ [[id, n, q, th, tl, ts1]])
        (active.filter (fun r => decide (id ∉ r))) _ [] hf2]
    have hkeep : (inactive ++ [[id, n, q, th, tl, ts1]]).filter
        (fun r => decide (id ∉ r)) = inactive := by
      rw [List.filter_append, filter_eq_self_of_no_match id inactive hi]
      simp
    rw [hkeep]
    simp [setLast]
  rw [hst2]
  refine ⟨rfl, rfl, ?_⟩
  simp

/-- Witness for C6: a concrete two-product store; removing and recovering
product `a` restores its row (timestamp refreshed) alongside product `b`. -/
theorem remove_then_recover_roundtrip_witness :
    (recover_deleted_product
        (remove_product_menu
          ⟨[["a", "w", "3", "10", "5", "t0"], ["b", "v", "1", "9", "2", "t0"]],
            []⟩ "a" "t1") "a" "t2").inactive = []
    ∧ (recover_deleted_product
        (remove_product_menu
          ⟨[["a", "w", "3", "10", "5", "t0"], ["b", "v", "1", "9", "2", "t0"]],
            []⟩ "a" "t1") "a" "t2").active =
        [["b", "v", "1", "9", "2", "t0"], ["a", "w", "3", "10", "5", "t2"]] := by
  have h := remove_then_recover_roundtrip "a" "w" "3" "10" "5" "t0" "t1" "t2"
    [["a", "w", "3", "10", "5", "t0"], ["b", "v", "1", "9", "2", "t0"]] []
    (by decide) (by decide)
  exact ⟨h.1, h.2.1⟩

/-! ## Per-product quantity transactions and the ledger -/

/-- One row of a product's transaction history file
(`[txn_id, kind, start_qty, add, remove, end_qty, unit_price, total_value,
timestamp]`); the unused delta column holds the empty string in the CSV
and is `none` here. -/
structure LedgerEntry where
  txn_id : String
  kind : String
  start_qty : ℤ
  delta_add : Option ℤ
  delta_remove : Option ℤ
  end_qty : ℤ
  unit_price : Dec
  total_value : ℚ
  timestamp : String
deriving DecidableEq

/-- The state the two writes of a quantity transaction touch: the
product's quantity cell in the active inventory and its ledger file. -/
structure ProdState where
  qty : ℤ
  ledger : List LedgerEntry
deriving DecidableEq

/-- `TechMart.add_product_qty_txn` with `prompt_add_qty_to_product_input`
inlined: no validation of the delta; the new quantity and the `buy`
history record are written unconditionally. -/
def add_product_qty_txn (s : ProdState) (d : ℤ) (p : Dec) (txn ts : String) :
    ProdState :=
  ⟨s.qty + d,
    s.ledger ++
      [⟨txn, "buy", s.qty, some d, none, s.qty + d, p,
        func_float_multiply p (d, 0) DEFAULT_STEP_VALUE, ts⟩]⟩

/-- `TechMart.remove_product_qty_txn` with
`prompt_remove_qty_from_product_input` inlined: the assert
`int(orig_qty) >= qty_to_remove` aborts the call (`none`) before either
write; otherwise the new quantity and the `sell` record are written. -/
def remove_product_qty_txn (s : ProdState) (d : ℤ) (p : Dec) (txn ts : String) :
    Option ProdState :=
  if d ≤ s.qty then
    some ⟨s.qty - d,
      s.ledger ++
        [⟨txn, "sell", s.qty, none, some d, s.qty - d, p,
          func_float_multiply p (d, 0) DEFAULT_STEP_VALUE, ts⟩]⟩
  else none

/-- The spec's `adjustQuantity`, dispatching on the transaction kind the
way the update-product menu does. -/
def adjustQuantity (kind : String) (s : ProdState) (d : ℤ) (p : Dec)
    (txn ts : String) : Option ProdState :=
  if kind = "buy" then some (add_product_qty_txn s d p txn ts)
  else if kind = "sell" then remove_product_qty_txn s d p txn ts
  else none

/-- State observed after an `adjustQuantity` call whose exception (if any)
was caught by the main loop: a failed call leaves the files as they were. -/
def runAdjust (kind : String) (s : ProdState) (d : ℤ) (p : Dec)
    (txn ts : String) : ProdState :=
  (adjustQuantity kind s d p txn ts).getD s

/-- C1 (amended): a sell whose delta exceeds the current quantity fails
(`AssertionError`, modelled `none`) with neither the inventory nor the
ledger written, and the quantity stays non-negative after every sell call
and after every buy call with non-negative delta.  (The unvalidated
negative buy delta is the sole escape; see the counterexample.) -/
theorem sell_insufficient_rejected_qty_nonneg (s : ProdState) (d : ℤ)
    (p : Dec) (t u : String) :
    (s.qty < d → adjustQuantity "sell" s d p t u = none
      ∧ runAdjust "sell" s d p t u = s)
    ∧ (0 ≤ s.qty → 0 ≤ (runAdjust "sell" s d p t u).qty)
    ∧ (0 ≤ s.qty → 0 ≤ d → 0 ≤ (runAdjust "buy" s d p t u).qty) := by
  have hsell : adjustQuantity "sell" s d p t u = remove_product_qty_txn s d p t u := by
    unfold adjustQuantity
    rw [if_neg (by decide), if_pos rfl]
  have hbuy : adjustQuantity "buy" s d p t u = some (add_product_qty_txn s d p t u) := by
    unfold adjustQuantity
    rw [if_pos rfl]
  refine ⟨?_, ?_, ?_⟩
  · intro hlt
    have hnone : remove_product_qty_txn s d p t u = none := by
      unfold remove_product_qty_txn
      rw [if_neg (not_le.mpr hlt)]
    refine ⟨hsell.trans hnone, ?_⟩
    unfold runAdjust
    rw [hsell, hnone]
    rfl
  · intro hq
    unfold runAdjust
    rw [hsell]
    unfold remove_product_qty_txn
    by_cases hd : d ≤ s.qty
    · rw [if_pos hd]
      simpa using sub_nonneg.mpr hd
    · rw [if_neg hd]
      simpa using hq
  · intro hq hd
    unfold runAdjust
    rw [hbuy]
    simpa [add_product_qty_txn] using add_nonneg hq hd

/-- Witness for C1 (amended): selling 9 from quantity 5 fails and leaves
the state untouched. -/
theorem sell_insufficient_rejected_qty_nonneg_witness :
    adjustQuantity "sell" ⟨5, []⟩ 9 (1, 0) "t" "u" = none
    ∧ runAdjust "sell" ⟨5, []⟩ 9 (1, 0) "t" "u" = ⟨5, []⟩ :=
  (sell_insufficient_rejected_qty_nonneg ⟨5, []⟩ 9 (1, 0) "t" "u").1 (by decide)

/-- C1 counterexample: a buy with delta `-1` from quantity 0 is accepted
(the call succeeds) and leaves the quantity at `-1`, refuting the claim
that every product's quantity is `>= 0` after every `adjustQuantity`
call. -/
theorem buy_negative_delta_goes_negative :
    (adjustQuantity "buy" ⟨0, []⟩ (-1) (1, 0) "t" "u").isSome = true
    ∧ (runAdjust "buy" ⟨0, []⟩ (-1) (1, 0) "t" "u").qty = -1
    ∧ ¬ 0 ≤ (runAdjust "buy" ⟨0, []⟩ (-1) (1, 0) "t" "u").qty := by
  refine ⟨rfl, by decide, by decide⟩

/-- C4 (amended): a non-positive delta is not rejected: a buy succeeds
unconditionally and appends a ledger entry, and a sell with a
non-positive delta succeeds (appending an entry) whenever the current
quantity is non-negative; only the sell insufficiency assert and the
upstream `int()` parse can fail. -/
theorem nonpositive_delta_not_rejected (s : ProdState) (d : ℤ) (p : Dec)
    (t u : String) (hd : d ≤ 0) :
    (adjustQuantity "buy" s d p t u).isSome = true
    ∧ ((adjustQuantity "buy" s d p t u).getD s).ledger.length =
        s.ledger.length + 1
    ∧ (0 ≤ s.qty →
        (adjustQuantity "sell" s d p t u).isSome = true
        ∧ ((adjustQuantity "sell" s d p t u).getD s).ledger.length =
            s.ledger.length + 1) := by
  have hbuy : adjustQuantity "buy" s d p t u = some (add_product_qty_txn s d p t u) := by
    unfold adjustQuantity
    rw [if_pos rfl]
  refine ⟨by rw [hbuy]; rfl, ?_, ?_⟩
  · rw [hbuy]
    simp [add_product_qty_txn]
  · intro hq
    have hsell : adjustQuantity "sell" s d p t u = remove_product_qty_txn s d p t u := by
      unfold adjustQuantity
      rw [if_neg (by decide), if_pos rfl]
    have hle : d ≤ s.qty := le_trans hd hq
    have hsome : remove_product_qty_txn s d p t u =
        some ⟨s.qty - d,
          s.ledger ++
            [⟨t, "sell", s.qty, none, some d, s.qty - d, p,
              func_float_multiply p (d, 0) DEFAULT_STEP_VALUE, u⟩]⟩ := by
      unfold remove_product_qty_txn
      rw [if_pos hle]
    rw [hsell, hsome]
    simp

/-- Witness for C4 (amended): a buy and a sell with delta `-3` on quantity
5 both succeed and both write a ledger entry. -/
theorem nonpositive_delta_not_rejected_witness :
    (adjustQuantity "buy" ⟨5, []⟩ (-3) (1, 0) "t" "u").isSome = true
    ∧ ((adjustQuantity "buy" ⟨5, []⟩ (-3) (1, 0) "t" "u").getD ⟨5, []⟩).ledger.length = 1 :=
  ⟨(nonpositive_delta_not_rejected ⟨5, []⟩ (-3) (1, 0) "t" "u" (by decide)).1,
    (nonpositive_delta_not_rejected ⟨5, []⟩ (-3) (1, 0) "t" "u" (by decide)).2.1⟩

/-- C4 counterexample: `adjustQuantity` with delta 0 (not a positive
integer) does not fail: it succeeds and writes a ledger entry, so both
stores are written. -/
theorem zero_delta_buy_succeeds_and_writes :
    (adjustQuantity "buy" ⟨5, []⟩ 0 (1, 0) "t" "u").isSome = true
    ∧ ((adjustQuantity "buy" ⟨5, []⟩ 0 (1, 0) "t" "u").getD ⟨5, []⟩).ledger.length = 1 := by
  refine ⟨rfl, by decide⟩

/-- A quantity-transaction request: the caller-supplied delta, unit price,
transaction id and timestamp for one menu invocation. -/
inductive TxnReq where
  | buy (d : ℤ) (p : Dec) (txn ts : String)
  | sell (d : ℤ) (p : Dec) (txn ts : String)
deriving DecidableEq

/-- Run one request against the product state. -/
def applyReq (s : ProdState) : TxnReq → Option ProdState
  | .buy d p txn ts => some (add_product_qty_txn s d p txn ts)
  | .sell d p txn ts => remove_product_qty_txn s d p txn ts

/-- Run a sequence of requests; `none` as soon as one call fails. -/
def runTxns : ProdState → List TxnReq → Option ProdState
  | s, [] => some s
  | s, r :: rs => (applyReq s r).bind (fun s2 => runTxns s2 rs)

/-- The delta carried by a request. -/
def reqDelta : TxnReq → ℤ
  | .buy d _ _ _ => d
  | .sell d _ _ _ => d

/-- The ledger entry recorded for a request carries the request's kind,
delta (in the matching column, the other empty), price, transaction id
and timestamp. -/
def reqMatches (r : TxnReq) (e : LedgerEntry) : Prop :=
  match r with
  | .buy d p txn ts =>
      e.kind = "buy" ∧ e.delta_add = some d ∧ e.delta_remove = none
        ∧ e.unit_price = p ∧ e.txn_id = txn ∧ e.timestamp = ts
  | .sell d p txn ts =>
      e.kind = "sell" ∧ e.delta_add = none ∧ e.delta_remove = some d
        ∧ e.unit_price = p ∧ e.txn_id = txn ∧ e.timestamp = ts

/-- The entries chain: the first starts at `q`, each entry starts where
the previous one ended, and the last ends at `qf`. -/
def chainFrom : ℤ → List LedgerEntry → ℤ → Prop
  | q, [], qf => qf = q
  | q, e :: t, qf => e.start_qty = q ∧ chainFrom e.end_qty t qf

lemma runTxns_spec (reqs : List TxnReq) : ∀ (s s' : ProdState),
    runTxns s reqs = some s' →
    ∃ tail, s'.ledger = s.ledger ++ tail
      ∧ List.Forall₂ reqMatches reqs tail
      ∧ chainFrom s.qty tail s'.qty
      ∧ (∀ e ∈ tail,
          e.end_qty = e.start_qty + e.delta_add.getD 0 - e.delta_remove.getD 0)
      ∧ (0 ≤ s.qty → (∀ r ∈ reqs, 0 ≤ reqDelta r) →
          (∀ e ∈ tail, 0 ≤ e.end_qty) ∧ 0 ≤ s'.qty) := by
  induction reqs with
  | nil =>
      intro s s' h
      have hs : s = s' := by
        simpa [runTxns] using h
      subst hs
      exact ⟨[], by simp, List.Forall₂.nil, rfl, by simp, fun hq _ => ⟨by simp, hq⟩⟩
  | cons r rs ih =>
      intro s s' h
      cases r with
      | buy d p txn ts =>
          have hstep : runTxns (add_product_qty_txn s d p txn ts) rs = some s' := by
            simpa [runTxns, applyReq] using h
          obtain ⟨tail, hled, hmat, hchain, heq, hnn⟩ :=
            ih (add_product_qty_txn s d p txn ts) s' hstep
          refine ⟨⟨txn, "buy", s.qty, some d, none, s.qty + d, p,
              func_float_multiply p (d, 0) DEFAULT_STEP_VALUE, ts⟩ :: tail,
            ?_, ?_, ?_, ?_, ?_⟩
          · rw [hled]
            simp [add_product_qty_txn]
          · exact List.Forall₂.cons (by simp [reqMatches]) hmat
          · exact ⟨rfl, hchain⟩
          · intro e he
            rcases List.mem_cons.mp he with he1 | he2
            · subst he1; simp
            · exact heq e he2
          · intro hq hall
            have hd : 0 ≤ d := by
              simpa [reqDelta] using hall (.buy d p txn ts) (by simp)
            have hq1 : 0 ≤ (add_product_qty_txn s d p txn ts).qty := by
              simpa [add_product_qty_txn] using add_nonneg hq hd
            have hrest := hnn hq1 (fun x hx => hall x (by simp [hx]))
            refine ⟨?_, hrest.2⟩
            intro e he
            rcases List.mem_cons.mp he with he1 | he2
            · subst he1
              simpa using add_nonneg hq hd
            · exact hrest.1 e he2
      | sell d p txn ts =>
          by_cases hle : d ≤ s.qty
          · have hstep : runTxns
                ⟨s.qty - d,
                  s.ledger ++
                    [⟨txn, "sell", s.qty, none, some d, s.qty - d, p,
                      func_float_multiply p (d, 0) DEFAULT_STEP_VALUE, ts⟩]⟩ rs =
                some s' := by
              simpa [runTxns, applyReq, remove_product_qty_txn, hle] using h
            obtain ⟨tail, hled, hmat, hchain, heq, hnn⟩ := ih _ s' hstep
            refine ⟨⟨txn, "sell", s.qty, none, some d, s.qty - d, p,
                func_float_multiply p (d, 0) DEFAULT_STEP_VALUE, ts⟩ :: tail,
              ?_, ?_, ?_, ?_, ?_⟩
            · rw [hled]
              simp
            · exact List.Forall₂.cons (by simp [reqMatches]) hmat
            · exact ⟨rfl, hchain⟩
            · intro e he
              rcases List.mem_cons.mp he with he1 | he2
              · subst he1; simp
              · exact heq e he2
            · intro hq hall
              have hq1 : (0 : ℤ) ≤ s.qty - d := sub_nonneg.mpr hle
              have hrest := hnn (by simpa using hq1) (fun x hx => hall x (by simp [hx]))
              refine ⟨?_, hrest.2⟩
              intro e he
              rcases List.mem_cons.mp he with he1 | he2
              · subst he1
                simpa using hq1
              · exact hrest.1 e he2
          · exfalso
            simp [runTxns, applyReq, remove_product_qty_txn, hle] at h

lemma chainFrom_get (l : List LedgerEntry) : ∀ (q qf : ℤ), chainFrom q l qf →
    (∀ (k : ℕ) (h1 : k < l.length) (h2 : k + 1 < l.length),
      (l.get ⟨k, h1⟩).end_qty = (l.get ⟨k + 1, h2⟩).start_qty)
    ∧ (∀ h0 : 0 < l.length, (l.get ⟨0, h0⟩).start_qty = q) := by
  induction l with
  | nil =>
      intro q qf _
      exact ⟨fun k h1 => absurd h1 (by simp), fun h0 => absurd h0 (by simp)⟩
  | cons e t ih =>
      intro q qf hch
      obtain ⟨hstart, hrest⟩ := hch
      obtain ⟨ih1, ih2⟩ := ih e.end_qty qf hrest
      constructor
      · intro k h1 h2
        cases k with
        | zero =>
            have ht : 0 < t.length := by
              simpa using h2
            have := ih2 ht
            simpa using this.symm
        | succ k =>
            have h1t : k < t.length := by
              simpa using h1
            have h2t : k + 1 < t.length := by
              simpa using h2
            simpa using ih1 k h1t h2t
      · intro _
        simpa using hstart

/-- C3 (amended): starting from quantity 0, a sequence of N successful
`adjustQuantity` calls leaves exactly N ledger entries, in call order
(entry k records request k's kind, delta, price, ids), each satisfying
`end_qty = start_qty + delta_add - delta_remove`, with entry k's `end_qty`
equal to entry k+1's `start_qty` and the first `start_qty` equal to 0;
`end_qty >= 0` holds throughout provided every requested delta is
non-negative (the code does not validate delta signs; see the
counterexample). -/
theorem ledger_has_n_chained_entries (reqs : List TxnReq) (s' : ProdState)
    (h : runTxns ⟨0, []⟩ reqs = some s') :
    s'.ledger.length = reqs.length
    ∧ List.Forall₂ reqMatches reqs s'.ledger
    ∧ (∀ e ∈ s'.ledger,
        e.end_qty = e.start_qty + e.delta_add.getD 0 - e.delta_remove.getD 0)
    ∧ (∀ (k : ℕ) (h1 : k < s'.ledger.length) (h2 : k + 1 < s'.ledger.length),
        (s'.ledger.get ⟨k, h1⟩).end_qty = (s'.ledger.get ⟨k + 1, h2⟩).start_qty)
    ∧ (∀ h0 : 0 < s'.ledger.length, (s'.ledger.get ⟨0, h0⟩).start_qty = 0)
    ∧ ((∀ r ∈ reqs, 0 ≤ reqDelta r) → ∀ e ∈ s'.ledger, 0 ≤ e.end_qty) := by
  obtain ⟨tail, hled, hmat, hchain, heq, hnn⟩ := runTxns_spec reqs ⟨0, []⟩ s' h
  have htail : s'.ledger = tail := by simpa using hled
  subst htail
  obtain ⟨hget, hhead⟩ := chainFrom_get s'.ledger 0 s'.qty hchain
  exact ⟨(hmat.length_eq).symm, hmat, heq, hget, hhead,
    fun hall => (hnn (by simp) hall).1⟩

/-- Witness for C3 (amended): a buy of 2 then a sell of 1 leaves two
chained entries with non-negative end quantities. -/
theorem ledger_has_n_chained_entries_witness :
    ((runTxns ⟨0, []⟩ [TxnReq.buy 2 (1, 0) "a" "b", TxnReq.sell 1 (1, 0) "c" "d"]).getD
        ⟨0, []⟩).ledger.length = 2
    ∧ (∀ e ∈ ((runTxns ⟨0, []⟩ [TxnReq.buy 2 (1, 0) "a" "b",
          TxnReq.sell 1 (1, 0) "c" "d"]).getD ⟨0, []⟩).ledger, 0 ≤ e.end_qty) := by
  have h := ledger_has_n_chained_entries
    [TxnReq.buy 2 (1, 0) "a" "b", TxnReq.sell 1 (1, 0) "c" "d"]
    ((runTxns ⟨0, []⟩ [TxnReq.buy 2 (1, 0) "a" "b",
      TxnReq.sell 1 (1, 0) "c" "d"]).getD ⟨0, []⟩) rfl
  exact ⟨h.1, h.2.2.2.2.2 (by decide)⟩

/-- C3 counterexample: one successful buy with delta `-1` from quantity 0
produces a ledger entry with `end_qty = -1 < 0`, refuting the claim's
unconditional `end_qty >= 0`. -/
theorem single_negative_buy_entry_negative :
    (runTxns ⟨0, []⟩ [TxnReq.buy (-1) (1, 0) "t" "u"]).isSome = true
    ∧ ¬ (∀ e ∈ ((runTxns ⟨0, []⟩ [TxnReq.buy (-1) (1, 0) "t" "u"]).getD
          ⟨0, []⟩).ledger, 0 ≤ e.end_qty) := by
  refine ⟨rfl, by decide⟩

/-! ## Ledger analytics -/

/-- The `total_buys_value` computed by `TechMart.show_total_revenue` /
`show_total_value_bought`: sum of `total_value` over `buy` entries. -/
def total_value_bought (l : List LedgerEntry) : ℚ :=
  ((l.filter (fun e => decide (e.kind = "buy"))).map
    (fun e => e.total_value)).sum

/-- The `total_sells_value` computed by `TechMart.show_total_revenue` /
`show_total_value_sold`: sum of `total_value` over `sell` entries. -/
def total_value_sold (l : List LedgerEntry) : ℚ :=
  ((l.filter (fun e => decide (e.kind = "sell"))).map
    (fun e => e.total_value)).sum

/-- `TechMart.show_total_revenue`'s result:
`fsum([total_sells_value, -total_buys_value])`. -/
def total_revenue (l : List LedgerEntry) : ℚ :=
  ([total_value_sold l, -total_value_bought l] : List ℚ).sum

lemma ffm_int_value (m1 : ℤ) (e1 : ℕ) (d : ℤ) (v : ℤ)
    (hv : decVal (m1, e1) * (d : ℚ) * (10 : ℚ) ^ 8 = ((v : ℤ) : ℚ)) :
    func_float_multiply (m1, e1) (d, 0) DEFAULT_STEP_VALUE =
      ((v : ℤ) : ℚ) / (10 : ℚ) ^ 8 := by
  rw [func_float_multiply_eq_floor]
  have hp : func_get_step_precision DEFAULT_STEP_VALUE = 8 := by decide
  rw [hp]
  have hd : decVal (d, 0) = (d : ℚ) := by
    simp [decVal]
  rw [hd, hv, Int.floor_intCast]

/-- C8: `totalRevenue = totalSold - totalBought` over every ledger, and in
the spec's scenario — buy 20 at unit price 2.50, then sell 5 at unit price
3.00 — the quantity ends at 15, `totalBought = 50`, `totalSold = 15` and
`totalRevenue = 15 - 50 = -35`. -/
theorem total_revenue_eq_sold_minus_bought :
    (∀ l : List LedgerEntry,
      total_revenue l = total_value_sold l - total_value_bought l)
    ∧ ((runTxns ⟨0, []⟩ [TxnReq.buy 20 (25, 1) "t1" "u1",
        TxnReq.sell 5 (30, 1) "t2" "u2"]).getD ⟨0, []⟩).qty = 15
    ∧ total_value_bought ((runTxns ⟨0, []⟩ [TxnReq.buy 20 (25, 1) "t1" "u1",
        TxnReq.sell 5 (30, 1) "t2" "u2"]).getD ⟨0, []⟩).ledger = 50
    ∧ total_value_sold ((runTxns ⟨0, []⟩ [TxnReq.buy 20 (25, 1) "t1" "u1",
        TxnReq.sell 5 (30, 1) "t2" "u2"]).getD ⟨0, []⟩).ledger = 15
    ∧ total_revenue ((runTxns ⟨0, []⟩ [TxnReq.buy 20 (25, 1) "t1" "u1",
        TxnReq.sell 5 (30, 1) "t2" "u2"]).getD ⟨0, []⟩).ledger = -35 := by
  have hgen : ∀ l : List LedgerEntry,
      total_revenue l = total_value_sold l - total_value_bought l := by
    intro l
    unfold total_revenue
    simp
    ring
  have hrun : (runTxns ⟨0, []⟩ [TxnReq.buy 20 (25, 1) "t1" "u1",
      TxnReq.sell 5 (30, 1) "t2" "u2"]).getD ⟨0, []⟩ =
      ⟨15,
        [⟨"t1", "buy", 0, some 20, none, 20, (25, 1),
          func_float_multiply (25, 1) (20, 0) DEFAULT_STEP_VALUE, "u1"⟩,
        ⟨"t2", "sell", 20, none, some 5, 15, (30, 1),
          func_float_multiply (30, 1) (5, 0) DEFAULT_STEP_VALUE, "u2"⟩]⟩ := by
    rfl
  have hb : func_float_multiply (25, 1) (20, 0) DEFAULT_STEP_VALUE = 50 := by
    have := ffm_int_value 25 1 20 5000000000 (by norm_num [decVal])
    rw [this]
    norm_num
  have hs : func_float_multiply (30, 1) (5, 0) DEFAULT_STEP_VALUE = 15 := by
    have := ffm_int_value 30 1 5 1500000000 (by norm_num [decVal])
    rw [this]
    norm_num
  rw [hrun]
  refine ⟨hgen, rfl, ?_, ?_, ?_⟩
  · unfold total_value_bought
    simp [hb]
  · unfold total_value_sold
    simp [hs]
  · rw [hgen]
    unfold total_value_sold total_value_bought
    simp [hb, hs]
    norm_num

/-! ## Restock level alert -/

/-- The three outcomes of `TechMart.restock_level_alert`: no restock
message, restock with only the threshold-1 line, restock with both
threshold lines. -/
inductive RestockAlert where
  | noAlert
  | belowHigh
  | belowBoth
deriving DecidableEq

/-- The decision structure of `TechMart.restock_level_alert`: compare the
quantity against threshold 1, and within that against threshold 2. -/
def restock_level_alert (qty threshold_1 threshold_2 : ℤ) : RestockAlert :=
  if qty < threshold_1 then
    if qty < threshold_2 then RestockAlert.belowBoth else RestockAlert.belowHigh
  else RestockAlert.noAlert

/-- C9: with `threshold_low < threshold_high` (the creation invariant),
the alert is `BelowBoth` below the low threshold, `BelowHigh` from the low
threshold up to (excluding) the high one, `NoAlert` from the high
threshold up; `BelowBoth` implies the `BelowHigh` condition; and with
thresholds (10, 5) the quantities 4, 7, 12 give `BelowBoth`, `BelowHigh`,
`NoAlert`. -/
theorem restock_alert_cases (qty t1 t2 : ℤ) (h : t2 < t1) :
    (qty < t2 → restock_level_alert qty t1 t2 = RestockAlert.belowBoth)
    ∧ (t2 ≤ qty → qty < t1 → restock_level_alert qty t1 t2 = RestockAlert.belowHigh)
    ∧ (t1 ≤ qty → restock_level_alert qty t1 t2 = RestockAlert.noAlert)
    ∧ (restock_level_alert qty t1 t2 = RestockAlert.belowBoth → qty < t1 ∧ qty < t2)
    ∧ restock_level_alert 4 10 5 = RestockAlert.belowBoth
    ∧ restock_level_alert 7 10 5 = RestockAlert.belowHigh
    ∧ restock_level_alert 12 10 5 = RestockAlert.noAlert := by
  refine ⟨?_, ?_, ?_, ?_, by decide, by decide, by decide⟩
  · intro h2
    unfold restock_level_alert
    rw [if_pos (lt_trans h2 h), if_pos h2]
  · intro h2 h1
    unfold restock_level_alert
    rw [if_pos h1, if_neg (not_lt.mpr h2)]
  · intro h1
    unfold restock_level_alert
    rw [if_neg (not_lt.mpr h1)]
  · intro halert
    unfold restock_level_alert at halert
    by_cases h1 : qty < t1
    · rw [if_pos h1] at halert
      by_cases h2 : qty < t2
      · exact ⟨h1, h2⟩
      · rw [if_neg h2] at halert
        exact absurd halert (by decide)
    · rw [if_neg h1] at halert
      exact absurd halert (by decide)

/-- Witness for C9: the spec's scenario with thresholds (10, 5). -/
theorem restock_alert_cases_witness :
    restock_level_alert 4 10 5 = RestockAlert.belowBoth
    ∧ restock_level_alert 7 10 5 = RestockAlert.belowHigh
    ∧ restock_level_alert 12 10 5 = RestockAlert.noAlert :=
  ⟨(restock_alert_cases 4 10 5 (by decide)).2.2.2.2.1,
    (restock_alert_cases 7 10 5 (by decide)).2.2.2.2.2.1,
    (restock_alert_cases 12 10 5 (by decide)).2.2.2.2.2.2⟩

/-! ## The active/inactive membership invariant -/

/-- The product ids present in both stores, active first. -/
def allHeads (st : StoreState) : List String :=
  storeIds st.active ++ storeIds st.inactive

/-- A well-formed stored row relative to a universe `A` of product ids:
its first field is an id from `A`, it has at least one further field and
none of the further fields is an id (these are the names, quantities,
thresholds and timestamps). -/
def rowWF (A : List String) (r : Row) : Prop :=
  ∃ i rest, r = i :: rest ∧ i ∈ A ∧ rest ≠ [] ∧ ∀ f ∈ rest, f ∉ A

/-- Both stores hold only well-formed rows. -/
def stateWF (A : List String) (st : StoreState) : Prop :=
  (∀ r ∈ st.active, rowWF A r) ∧ (∀ r ∈ st.inactive, rowWF A r)

/-- One user-level catalog operation: create carries the fresh id and the
remaining fields of the new row; remove and recover carry the entered id
and the stamped timestamp. -/
inductive InvOp where
  | create (id : String) (rest : List String)
  | remove (id ts : String)
  | recover (id ts : String)
deriving DecidableEq

/-- Dispatch of one operation, as the main menu does. -/
def stepOp (st : StoreState) : InvOp → StoreState
  | InvOp.create i rest => add_product_menu st i rest
  | InvOp.remove i ts => remove_product_menu st i ts
  | InvOp.recover i ts => recover_deleted_product st i ts

/-- Run an operation sequence from empty stores. -/
def runOps (ops : List InvOp) : StoreState := ops.foldl stepOp ⟨[], []⟩

/-- The ids assigned by the create operations of a sequence. -/
def createdIds : List InvOp → List String
  | [] => []
  | InvOp.create i _ :: t => i :: createdIds t
  | InvOp.remove _ _ :: t => createdIds t
  | InvOp.recover _ _ :: t => createdIds t

/-- Side conditions of one operation relative to the id universe `A`:
a created row has its id in `A`, a nonempty field tail, and no tail field
equal to an id; the timestamps stamped by remove/recover are not ids. -/
def opOK (A : List String) : InvOp → Bool
  | InvOp.create i rest =>
      decide (i ∈ A) && !rest.isEmpty && rest.all (fun f => decide (f ∉ A))
  | InvOp.remove _ ts => decide (ts ∉ A)
  | InvOp.recover _ ts => decide (ts ∉ A)

lemma setLast_cons (i : String) (rest : List String) (v : String)
    (h : rest ≠ []) : setLast (i :: rest) v = i :: setLast rest v := by
  cases rest with
  | nil => exact absurd rfl h
  | cons y t => rfl

lemma setLast_ne_nil (l : List String) (v : String) (h : l ≠ []) :
    setLast l v ≠ [] := by
  cases l with
  | nil => exact absurd rfl h
  | cons x t =>
      cases t with
      | nil => simp [setLast]
      | cons y u => simp [setLast]

lemma mem_setLast (l : List String) (v : String) :
    ∀ f ∈ setLast l v, f ∈ l ∨ f = v := by
  induction l with
  | nil => intro f hf; exact absurd hf (by simp [setLast])
  | cons x t ih =>
      intro f hf
      cases t with
      | nil =>
          simp [setLast] at hf
          exact Or.inr hf
      | cons y u =>
          rw [setLast] at hf
          rcases List.mem_cons.mp hf with h1 | h2
          · exact Or.inl (h1 ▸ List.mem_cons_self x _)
          · rcases ih f h2 with h3 | h4
            · exact Or.inl (List.mem_cons_of_mem x h3)
            · exact Or.inr h4

lemma purge_move_spec (A : List String) (id ts : String) (src dest : List Row)
    (hWF : ∀ r ∈ src, rowWF A r)
    (hguard : id ∈ storeIds src)
    (hnd : (storeIds src).Nodup)
    (hts : ts ∉ A) :
    ∃ src2 dest2 row2,
      purge_line_of_file_and_add_to_another id ts src dest = some (src2, dest2, row2)
      ∧ src2 = src.filter (fun r => decide (id ∉ r))
      ∧ (∀ r ∈ src2, r ∈ src)
      ∧ storeIds src2 = (storeIds src).erase id
      ∧ dest2 = dest ++ [row2]
      ∧ rowWF A row2
      ∧ row2.headD "" = id := by
  obtain ⟨rh, hrh_mem, hrh_head⟩ := List.mem_map.mp hguard
  have idA : id ∈ A := by
    obtain ⟨i, rest, hr, hiA, _, _⟩ := hWF rh hrh_mem
    rw [hr] at hrh_head
    simp at hrh_head
    exact hrh_head ▸ hiA
  have matcheq : ∀ r ∈ src,
      (decide (id ∈ r) : Bool) = decide (r.headD "" = id) := by
    intro r hr
    obtain ⟨i, rest, hreq, hiA, _, hf⟩ := hWF r hr
    subst hreq
    apply decide_eq_decide.mpr
    constructor
    · intro hin
      rcases List.mem_cons.mp hin with h1 | h2
      · simp [h1]
      · exact absurd idA (hf id h2)
    · intro hh
      simp at hh
      simp [hh]
  have hfe : src.filter (fun r => decide (id ∈ r)) =
      src.filter (fun r => decide (r.headD "" = id)) :=
    List.filter_congr matcheq
  rcases hcase : src.filter (fun r => decide (id ∈ r)) with _ | ⟨r0, rest0⟩
  · exfalso
    have : rh ∈ src.filter (fun r => decide (r.headD "" = id)) :=
      List.mem_filter.mpr ⟨hrh_mem, by rw [hrh_head]; simp⟩
    rw [← hfe, hcase] at this
    exact absurd this (by simp)
  · have hpurge := purge_eq_of_filter id ts src dest r0 rest0 hcase
    have hr0f : r0 ∈ src.filter (fun r => decide (id ∈ r)) := by
      rw [hcase]; exact List.mem_cons_self r0 rest0
    have hr0_mem : r0 ∈ src := List.mem_of_mem_filter hr0f
    have hr0_head : r0.headD "" = id := by
      have := List.of_mem_filter (hfe ▸ hr0f)
      simpa using this
    obtain ⟨i0, rest0f, hr0eq, hi0A, hrest0ne, hf0⟩ := hWF r0 hr0_mem
    have hi0id : i0 = id := by
      rw [hr0eq] at hr0_head
      simpa using hr0_head
    rw [hi0id] at hr0eq
    refine ⟨src.filter (fun r => decide (id ∉ r)), dest ++ [setLast r0 ts],
      setLast r0 ts, hpurge, rfl, ?_, ?_, rfl, ?_, ?_⟩
    · intro r hr
      exact List.mem_of_mem_filter hr
    · have hneg2 : src.filter (fun r => decide (id ∉ r)) =
          src.filter (fun r => !decide (r.headD "" = id)) := by
        apply List.filter_congr
        intro r hr
        rw [decide_not, matcheq r hr]
      have hmapfil : storeIds (src.filter (fun r => !decide (r.headD "" = id))) =
          (storeIds src).filter (fun x => !decide (x = id)) := by
        unfold storeIds
        have hc := (@List.filter_map Row String (fun x => !decide (x = id))
          (fun r => r.headD "") src).symm
        simpa [Function.comp] using hc
      have herase : (storeIds src).erase id =
          (storeIds src).filter (fun x => !decide (x = id)) := by
        rw [hnd.erase_eq_filter id]
        apply List.filter_congr
        intro x _
        by_cases h : x = id <;> simp [h]
      rw [hneg2, hmapfil, herase]
    · rw [hr0eq, setLast_cons id rest0f ts hrest0ne]
      refine ⟨id, setLast rest0f ts, rfl, idA, setLast_ne_nil rest0f ts hrest0ne, ?_⟩
      intro f hfm
      rcases mem_setLast rest0f ts f hfm with h1 | h2
      · exact hf0 f h1
      · exact h2 ▸ hts
    · rw [hr0eq, setLast_cons id rest0f ts hrest0ne]
      rfl

lemma remove_preserves (A : List String) (processed : List String)
    (id ts : String) (st : StoreState) (hts : ts ∉ A)
    (hwf : stateWF A st) (hhnd : (allHeads st).Nodup)
    (hmem : ∀ x, x ∈ allHeads st ↔ x ∈ processed) :
    stateWF A (remove_product_menu st id ts)
    ∧ (allHeads (remove_product_menu st id ts)).Nodup
    ∧ (∀ x, x ∈ allHeads (remove_product_menu st id ts) ↔ x ∈ processed) := by
  by_cases hguard : id ∈ storeIds st.active
  · obtain ⟨src2, dest2, row2, hp, hsrc2f, hsub, hserase, hdest2, hrowWF, hrowhead⟩ :=
      purge_move_spec A id ts st.active st.inactive hwf.1 hguard
        hhnd.of_append_left hts
    have hst : remove_product_menu st id ts = ⟨src2, dest2⟩ := by
      unfold remove_product_menu
      rw [if_pos hguard, hp]
    have hB2 : storeIds dest2 = storeIds st.inactive ++ [id] := by
      rw [hdest2]
      unfold storeIds
      rw [List.map_append]
      simp only [List.map_cons, List.map_nil, hrowhead]
    have hperm : List.Perm (storeIds src2 ++ storeIds dest2)
        (storeIds st.active ++ storeIds st.inactive) := by
      rw [hserase, hB2]
      have p1 : List.Perm (storeIds st.inactive ++ [id]) (id :: storeIds st.inactive) :=
        List.perm_append_singleton id (storeIds st.inactive)
      have p2 := p1.append_left ((storeIds st.active).erase id)
      have p3 : List.Perm
          ((storeIds st.active).erase id ++ (id :: storeIds st.inactive))
          (id :: ((storeIds st.active).erase id ++ storeIds st.inactive)) :=
        List.perm_middle
      have p4 : List.Perm (storeIds st.active) (id :: (storeIds st.active).erase id) :=
        List.perm_cons_erase hguard
      have p5 := p4.append_right (storeIds st.inactive)
      exact (p2.trans p3).trans p5.symm
    have hperm2 : List.Perm (allHeads ⟨src2, dest2⟩) (allHeads st) := hperm
    rw [hst]
    refine ⟨⟨?_, ?_⟩, hperm2.symm.nodup hhnd, ?_⟩
    · intro r hr
      exact hwf.1 r (hsub r hr)
    · intro r hr
      rw [hdest2] at hr
      rcases List.mem_append.mp hr with h1 | h2
      · exact hwf.2 r h1
      · rw [List.mem_singleton.mp h2]
        exact hrowWF
    · intro x
      rw [hperm2.mem_iff]
      exact hmem x
  · unfold remove_product_menu
    rw [if_neg hguard]
    exact ⟨hwf, hhnd, hmem⟩

lemma recover_preserves (A : List String) (processed : List String)
    (id ts : String) (st : StoreState) (hts : ts ∉ A)
    (hwf : stateWF A st) (hhnd : (allHeads st).Nodup)
    (hmem : ∀ x, x ∈ allHeads st ↔ x ∈ processed) :
    stateWF A (recover_deleted_product st id ts)
    ∧ (allHeads (recover_deleted_product st id ts)).Nodup
    ∧ (∀ x, x ∈ allHeads (recover_deleted_product st id ts) ↔ x ∈ processed) := by
  by_cases hguard : id ∈ storeIds st.inactive
  · obtain ⟨src2, dest2, row2, hp, hsrc2f, hsub, hserase, hdest2, hrowWF, hrowhead⟩ :=
      purge_move_spec A id ts st.inactive st.active hwf.2 hguard
        hhnd.of_append_right hts
    have hst : recover_deleted_product st id ts = ⟨dest2, src2⟩ := by
      unfold recover_deleted_product
      rw [if_pos hguard, hp]
    have hB2 : storeIds dest2 = storeIds st.active ++ [id] := by
      rw [hdest2]
      unfold storeIds
      rw [List.map_append]
      simp only [List.map_cons, List.map_nil, hrowhead]
    have hperm : List.Perm (storeIds dest2 ++ storeIds src2)
        (storeIds st.active ++ storeIds st.inactive) := by
      rw [hserase, hB2, List.append_assoc]
      have p4 : List.Perm (storeIds st.inactive)
          (id :: (storeIds st.inactive).erase id) :=
        List.perm_cons_erase hguard
      have p5 := p4.append_left (storeIds st.active)
      exact p5.symm
    have hperm2 : List.Perm (allHeads ⟨dest2, src2⟩) (allHeads st) := hperm
    rw [hst]
    refine ⟨⟨?_, ?_⟩, hperm2.symm.nodup hhnd, ?_⟩
    · intro r hr
      rw [hdest2] at hr
      rcases List.mem_append.mp hr with h1 | h2
      · exact hwf.1 r h1
      · rw [List.mem_singleton.mp h2]
        exact hrowWF
    · intro r hr
      exact hwf.2 r (hsub r hr)
    · intro x
      rw [hperm2.mem_iff]
      exact hmem x
  · unfold recover_deleted_product
    rw [if_neg hguard]
    exact ⟨hwf, hhnd, hmem⟩

lemma runOps_inv (A : List String) :
    ∀ (ops : List InvOp) (st : StoreState) (processed : List String),
      (∀ op ∈ ops, opOK A op = true) →
      (processed ++ createdIds ops).Nodup →
      stateWF A st →
      (allHeads st).Nodup →
      (∀ x, x ∈ allHeads st ↔ x ∈ processed) →
      stateWF A (ops.foldl stepOp st)
      ∧ (allHeads (ops.foldl stepOp st)).Nodup
      ∧ (∀ x, x ∈ allHeads (ops.foldl stepOp st) ↔ x ∈ processed ++ createdIds ops) := by
  intro ops
  induction ops with
  | nil =>
      intro st processed _ _ hwf hhnd hmem
      refine ⟨hwf, hhnd, ?_⟩
      intro x
      rw [createdIds, List.append_nil]
      exact hmem x
  | cons op t ih =>
      intro st processed hops hnd hwf hhnd hmem
      have hopok := hops op (List.mem_cons_self op t)
      have hopst : ∀ o ∈ t, opOK A o = true :=
        fun o ho => hops o (List.mem_cons_of_mem op ho)
      cases op with
      | create i rest =>
          have hok : i ∈ A ∧ rest ≠ [] ∧ ∀ f ∈ rest, f ∉ A := by
            simp only [opOK, Bool.and_eq_true, decide_eq_true_eq,
              Bool.not_eq_true', List.isEmpty_eq_false, List.all_eq_true] at hopok
            exact ⟨hopok.1.1, hopok.1.2, hopok.2⟩
          have hcreated : createdIds (InvOp.create i rest :: t) = i :: createdIds t := rfl
          rw [hcreated] at hnd
          have hifresh_p : i ∉ processed := by
            intro hip
            exact List.disjoint_of_nodup_append hnd hip (List.mem_cons_self i _)
          have hifresh : i ∉ allHeads st := fun h => hifresh_p ((hmem i).mp h)
          have hstep : stepOp st (InvOp.create i rest) =
              ⟨st.active ++ [i :: rest], st.inactive⟩ := rfl
          have hwf1 : stateWF A ⟨st.active ++ [i :: rest], st.inactive⟩ := by
            refine ⟨?_, hwf.2⟩
            intro r hr
            rcases List.mem_append.mp hr with h1 | h2
            · exact hwf.1 r h1
            · rw [List.mem_singleton.mp h2]
              exact ⟨i, rest, rfl, hok.1, hok.2.1, hok.2.2⟩
          have hheads : allHeads ⟨st.active ++ [i :: rest], st.inactive⟩ =
              storeIds st.active ++ ([i] ++ storeIds st.inactive) := by
            show storeIds (st.active ++ [i :: rest]) ++ storeIds st.inactive = _
            unfold storeIds
            rw [List.map_append, List.append_assoc]
            rfl
          have hperm : List.Perm (allHeads ⟨st.active ++ [i :: rest], st.inactive⟩)
              (i :: allHeads st) := by
            rw [hheads]
            exact List.perm_middle
          have hhnd1 : (allHeads ⟨st.active ++ [i :: rest], st.inactive⟩).Nodup := by
            refine hperm.symm.nodup (List.nodup_cons.mpr ⟨hifresh, hhnd⟩)
          have hmem1 : ∀ x, x ∈ allHeads ⟨st.active ++ [i :: rest], st.inactive⟩ ↔
              x ∈ processed ++ [i] := by
            intro x
            rw [hperm.mem_iff, List.mem_cons, List.mem_append, List.mem_singleton,
              hmem x]
            tauto
          have hnd1 : ((processed ++ [i]) ++ createdIds t).Nodup := by
            rw [List.append_assoc]
            exact hnd
          have hres := ih ⟨st.active ++ [i :: rest], st.inactive⟩ (processed ++ [i])
            hopst hnd1 hwf1 hhnd1 hmem1
          refine ⟨hres.1, hres.2.1, ?_⟩
          intro x
          rw [hcreated]
          have := hres.2.2 x
          rw [List.append_assoc] at this
          exact this
      | remove i ts =>
          have hts : ts ∉ A := by
            simpa [opOK] using hopok
          have hpres := remove_preserves A processed i ts st hts hwf hhnd hmem
          exact ih (remove_product_menu st i ts) processed hopst hnd
            hpres.1 hpres.2.1 hpres.2.2
      | recover i ts =>
          have hts : ts ∉ A := by
            simpa [opOK] using hopok
          have hpres := recover_preserves A processed i ts st hts hwf hhnd hmem
          exact ih (recover_deleted_product st i ts) processed hopst hnd
            hpres.1 hpres.2.1 hpres.2.2

/-- C2 (amended): starting from empty stores, after any sequence of
create/remove/recover operations every created product id is a member of
exactly one of the active and inactive sets — provided the created ids
are fresh and no other stored field (name, quantity, thresholds,
timestamps) ever equals a product id.  Without that proviso the invariant
fails, because purging id X also drops any row containing X in any field
(see the counterexample). -/
theorem product_membership_exclusive (ops : List InvOp)
    (h1 : (createdIds ops).Nodup)
    (h2 : ∀ op ∈ ops, opOK (createdIds ops) op = true) :
    ∀ id ∈ createdIds ops,
      (id ∈ storeIds (runOps ops).active ∧ id ∉ storeIds (runOps ops).inactive)
      ∨ (id ∉ storeIds (runOps ops).active ∧ id ∈ storeIds (runOps ops).inactive) := by
  have hres := runOps_inv (createdIds ops) ops ⟨[], []⟩ [] h2
    (by simpa using h1)
    (by constructor <;> intro r hr <;> exact absurd hr (by simp))
    (by simp [allHeads, storeIds])
    (by intro x; simp [allHeads, storeIds])
  intro id hid
  have hin : id ∈ allHeads (runOps ops) := by
    have := (hres.2.2 id).mpr (by simpa using hid)
    exact this
  have hdisj := List.disjoint_of_nodup_append hres.2.1
  rcases List.mem_append.mp hin with hact | hinact
  · exact Or.inl ⟨hact, fun hi => hdisj hact hi⟩
  · exact Or.inr ⟨fun ha => hdisj ha hinact, hinact⟩

/-- Witness for C2 (amended): create product `a`, remove it, recover it;
afterwards `a` is a member of exactly one store (the active one). -/
theorem product_membership_exclusive_witness :
    ("a" ∈ storeIds (runOps [InvOp.create "a" ["x", "0", "10", "5", "t0"],
        InvOp.remove "a" "t1", InvOp.recover "a" "t2"]).active
      ∧ "a" ∉ storeIds (runOps [InvOp.create "a" ["x", "0", "10", "5", "t0"],
        InvOp.remove "a" "t1", InvOp.recover "a" "t2"]).inactive)
    ∨ ("a" ∉ storeIds (runOps [InvOp.create "a" ["x", "0", "10", "5", "t0"],
        InvOp.remove "a" "t1", InvOp.recover "a" "t2"]).active
      ∧ "a" ∈ storeIds (runOps [InvOp.create "a" ["x", "0", "10", "5", "t0"],
        InvOp.remove "a" "t1", InvOp.recover "a" "t2"]).inactive) :=
  product_membership_exclusive
    [InvOp.create "a" ["x", "0", "10", "5", "t0"],
      InvOp.remove "a" "t1", InvOp.recover "a" "t2"]
    (by decide) (by decide) "a" (by decide)

/-- C2 counterexample: create `a`, then create `b` whose *name* field is
the string `a`, then remove `a`: the purge drops `b`'s row as a second
match, leaving the created id `b` in neither store — the claim's
"never neither once created" fails on the code as stated. -/
theorem removed_id_purges_unrelated_product :
    "b" ∈ createdIds [InvOp.create "a" ["x", "0", "10", "5", "t0"],
        InvOp.create "b" ["a", "0", "10", "5", "t0"], InvOp.remove "a" "t1"]
    ∧ "b" ∉ storeIds (runOps [InvOp.create "a" ["x", "0", "10", "5", "t0"],
        InvOp.create "b" ["a", "0", "10", "5", "t0"], InvOp.remove "a" "t1"]).active
    ∧ "b" ∉ storeIds (runOps [InvOp.create "a" ["x", "0", "10", "5", "t0"],
        InvOp.create "b" ["a", "0", "10", "5", "t0"], InvOp.remove "a" "t1"]).inactive := by
  refine ⟨by decide, by decide, by decide⟩
